import Mathlib

/-!
Shallow embedding of `bseuParser.py`, a scraper for a university staff
directory.  The HTML documents returned by the network are modelled as an
inductive tree `Node`; BeautifulSoup's descendant searches (`find`,
`find_all`, attribute access like `soup.img`) become pre-order traversals
of that tree; Python exceptions (AttributeError on `None`, IndexError,
KeyError, network failures) become an `Except PyError` result.  The
network itself is an abstract function `fetch : String → Except PyError Node`.
-/

set_option autoImplicit false

namespace Bseu

/-- Python exceptions that the script can raise. `attributeError` covers
attribute access on `None` (BeautifulSoup returns `None` for a missing
element) and on objects lacking the attribute; `transportError` stands for
any `requests` failure. -/
inductive PyError where
  | attributeError
  | indexError
  | keyError
  | transportError
  deriving DecidableEq, Repr

/-- An HTML document tree: element nodes with a tag name, an attribute
association list and children, and text nodes (NavigableStrings). -/
inductive Node where
  | elem (tag : String) (attrs : List (String × String)) (children : List Node)
  | text (s : String)

mutual

/-- All descendants of a node in document (pre-order) order, the order in
which BeautifulSoup's `find` / `find_all` visit them. The node itself is
not included, matching `tag.find(...)` searching only within the tag. -/
def Node.descendants : Node → List Node
  | .text _ => []
  | .elem _ _ cs => Node.descList cs

/-- Pre-order listing of a forest: each root followed by its descendants. -/
def Node.descList : List Node → List Node
  | [] => []
  | c :: cs => c :: (Node.descendants c ++ Node.descList cs)

end

/-- Attribute lookup on an element (`tag['k']` / `tag.get('k')` presence). -/
def Node.attr : Node → String → Option String
  | .elem _ attrs _, k => (attrs.find? (fun kv => kv.1 == k)).map (fun kv => kv.2)
  | .text _, _ => none

/-- The tag name of an element node. -/
def Node.tagName : Node → Option String
  | .elem t _ _ => some t
  | .text _ => none

/-- `soup.find(pred)`: first descendant satisfying the predicate. -/
def Node.find (n : Node) (p : Node → Bool) : Option Node :=
  n.descendants.find? p

/-- `soup.find_all(pred)`: all descendants satisfying the predicate, in
document order. -/
def Node.findAll (n : Node) (p : Node → Bool) : List Node :=
  n.descendants.filter p

/-- `.text` of a BeautifulSoup node: concatenation of every descendant
text string in document order (a text node yields its own string). -/
def Node.innerText : Node → String
  | .text s => s
  | n => String.join (n.descendants.filterMap (fun c =>
      match c with
      | .text s => some s
      | _ => none))

/-- Whitespace for Python's `str.split()` / `str.strip()` (the characters
relevant to this program; Python also treats U+00A0 as whitespace). -/
def isPySpace (c : Char) : Bool :=
  c == ' ' || c == '\t' || c == '\n' || c == '\r' || c == '\x0b' ||
    c == '\x0c' || c == '\xa0'

/-- Helper for `pySplit`: accumulates the current (reversed) token. -/
def pySplitAux : List Char → List Char → List String
  | [], acc => if acc.isEmpty then [] else [String.mk acc.reverse]
  | c :: cs, acc =>
    if isPySpace c then
      if acc.isEmpty then pySplitAux cs []
      else String.mk acc.reverse :: pySplitAux cs []
    else pySplitAux cs (c :: acc)

/-- Python `s.split()` with no separator: split on runs of whitespace,
discarding empty tokens. -/
def pySplit (s : String) : List String :=
  pySplitAux s.data []

/-- Python `'Б'.lower()` on the characters this program meets: ASCII
`A`-`Z` and Cyrillic `А`-`Я`, `Ё`. -/
def pyLowerChar (c : Char) : Char :=
  if 'A' ≤ c && c ≤ 'Z' then Char.ofNat (c.toNat + 32)
  else if 'А' ≤ c && c ≤ 'Я' then Char.ofNat (c.toNat + 32)
  else if c == 'Ё' then 'ё'
  else c

/-- Python `s.lower()`. -/
def pyLower (s : String) : String :=
  String.mk (s.data.map pyLowerChar)

/-- Python `s.strip()`: remove leading and trailing whitespace. -/
def pyStrip (s : String) : String :=
  String.mk (((s.data.dropWhile isPySpace).reverse.dropWhile isPySpace).reverse)

/-- Characters of `s` before the first U+00A0, all of `s` if none. -/
def takeUntilNbsp : List Char → List Char
  | [] => []
  | c :: cs => if c == '\xa0' then [] else c :: takeUntilNbsp cs

/-- Python `s.partition(u'\xa0')[0]`. -/
def pyPartitionNbspFst (s : String) : String :=
  String.mk (takeUntilNbsp s.data)

/-- Python `xs[i]`: the element, or an `IndexError`. -/
def listGet {α : Type} (xs : List α) (i : Nat) : Except PyError α :=
  match xs.get? i with
  | some x => .ok x
  | none => .error .indexError

/-- The name parts assembled by `transform_full_name`
(`last_name`, `first_name`, `middle_name`). -/
structure NameParts where
  last_name : String
  first_name : String
  middle_name : String
  deriving DecidableEq, Repr

/-- `transform_full_name`: split the full name on whitespace; with exactly
2 tokens append an empty middle name, otherwise rebuild
`[names[0], names[1], ' '.join(names[2:])]` (raising `IndexError` when an
index is out of range), and read the three fields back out. -/
def transform_full_name (full_name : String) : Except PyError NameParts := do
  let names0 := pySplit full_name
  let names ←
    if names0.length == 2 then
      pure (names0 ++ [""])
    else do
      let a ← listGet names0 0
      let b ← listGet names0 1
      pure [a, b, String.intercalate " " (names0.drop 2)]
  let ln ← listGet names 0
  let fn ← listGet names 1
  let mn ← listGet names 2
  pure ⟨ln, fn, mn⟩

/-- The fixed ordered list of known degree labels in `transform_degree`. -/
def degrees : List String :=
  ["преподаватель",
   "старший преподаватель",
   "доцент",
   "профессор",
   "ассистент"]

/-- `transform_degree`: lower-case the label and look it up, exactly and
untrimmed, in `degrees`; its first index if present, else the list's
length. -/
def transform_degree (degree_string : String) : Nat :=
  if degrees.contains (pyLower degree_string) then
    degrees.indexOf (pyLower degree_string)
  else
    degrees.length

/-- Modelled from the spec (§4.5), for comparison with `transform_degree`:
"Lower-cases the input, looks up exact (trimmed) match against the fixed
ordered label list; returns its index, else returns the list's length." -/
def normalizeDegreeSpec (degree_string : String) : Nat :=
  if degrees.contains (pyStrip (pyLower degree_string)) then
    degrees.indexOf (pyStrip (pyLower degree_string))
  else
    degrees.length

/-- The query `soup.find('div', {'id': div_id})` tests: a `div` element
whose `id` attribute equals `div_id`. -/
def isDivWithId (div_id : String) (n : Node) : Bool :=
  n.tagName == some "div" && n.attr "id" == some div_id

/-- An anchor carrying an `href` attribute
(`soup.find_all('a', href=True)`). -/
def isAnchorWithHref (n : Node) : Bool :=
  n.tagName == some "a" && (n.attr "href").isSome

/-- An element with the given tag name (attribute access like `soup.img`,
`soup.h4`, `p.br` finds the first such descendant). -/
def isTag (t : String) (n : Node) : Bool :=
  n.tagName == some t

/-- The query `soup.find('p', {'class': 'noIndnt'})`: BeautifulSoup treats
`class` as multi-valued, matching when the sought class is one of the
whitespace-separated class tokens. -/
def isPNoIndnt (n : Node) : Bool :=
  n.tagName == some "p" &&
    (match n.attr "class" with
     | some v => (pySplit v).contains "noIndnt"
     | none => false)

/-- `parse_staff_links`: find the `div` with the given id (an
`AttributeError` is raised on `find_all` when it is absent), then collect
the `href` of every anchor-with-`href` among its descendants, in document
order. -/
def parse_staff_links (soup : Node) (div_id : String) :
    Except PyError (List String) :=
  match soup.find (isDivWithId div_id) with
  | none => .error .attributeError
  | some container =>
    .ok ((container.findAll isAnchorWithHref).map
      (fun a => ((a.attr "href").getD "")))

mutual

/-- Search a node's descendants in document order for the first element
with the given tag, returning `some` its `next_sibling`
(`none` when the tag is absent; the inner `Option` is the sibling, `none`
when the found element is the last child of its parent). This models the
chain `p.br.next_sibling`. -/
def findTagNextSibling (t : String) : Node → Option (Option Node)
  | .text _ => none
  | .elem _ _ cs => findTagNextSiblingList t cs

/-- `findTagNextSibling` over a list of siblings. -/
def findTagNextSiblingList (t : String) : List Node → Option (Option Node)
  | [] => none
  | c :: cs =>
    if isTag t c then
      some cs.head?
    else
      match findTagNextSibling t c with
      | some r => some r
      | none => findTagNextSiblingList t cs

end

/-- `parse_degree_`: find the first `p` of class `noIndnt` (an
`AttributeError` on `.br` when absent), its first `br` descendant (an
`AttributeError` on `.next_sibling` when absent), and that `br`'s next
sibling; the sibling must be a text node (`None` and `Tag` have no
`.partition`), whose text before the first non-breaking space is
returned. -/
def parse_degree_ (soup : Node) : Except PyError String :=
  match soup.find isPNoIndnt with
  | none => .error .attributeError
  | some p =>
    match findTagNextSibling "br" p with
    | none => .error .attributeError
    | some none => .error .attributeError
    | some (some (.elem _ _ _)) => .error .attributeError
    | some (some (.text s)) => .ok (pyPartitionNbspFst s)

/-- `parse_personal_page`: find the `div` with the given id
(`AttributeError` when absent); the image source is the `src` of the first
`img` descendant if one exists (`KeyError` when the attribute is missing),
else `''`; the full name is the `.text` of the first `h4` descendant
(`AttributeError` when absent); the degree text comes from
`parse_degree_`. Returns `(full_name, img, degree_string)`. -/
def parse_personal_page (soup0 : Node) (div_id : String) :
    Except PyError (String × String × String) := do
  match soup0.find (isDivWithId div_id) with
  | none => .error .attributeError
  | some soup => do
    let img ←
      match soup.find (isTag "img") with
      | some imgTag =>
        match imgTag.attr "src" with
        | some v => pure v
        | none => Except.error .keyError
      | none => pure ""
    let full_name ←
      match soup.find (isTag "h4") with
      | some h => pure (Node.innerText h)
      | none => Except.error .attributeError
    let degree_string ← parse_degree_ soup
    pure (full_name, img, degree_string)

/-- The final record for one staff member: exactly the five keys written
to the output JSON. -/
structure StaffRecord where
  last_name : String
  first_name : String
  middle_name : String
  img : String
  degree : Nat
  deriving DecidableEq, Repr

namespace Parser

/-- `Parser.base_url`. -/
def base_url : String := "http://www.bseu.by/PersonalPages/alphabetic.htm"

/-- `Parser.personal_page_prefix`. -/
def personal_page_prefix : String := "http://www.bseu.by"

/-- `Parser.staff_div_id`. -/
def staff_div_id : String := "Pages"

/-- `Parser.person_div_id`. -/
def person_div_id : String := "persinfo"

/-- `Parser.default_image`. -/
def default_image : String := "https://mytimetable.live/images/man-user.png"

/-- The network, abstracted: `get_html_parser` for one URL, either a
parsed document or a transport failure. -/
def Fetch : Type := String → Except PyError Node

/-- `Parser.get_personal_page` (logging dropped): fetch
`prefix + suffix`, extract the raw profile, normalize the name, choose the
image URL (`prefix + img` when `img` is truthy, the default placeholder
when it is the empty string), normalize the degree, and assemble the
record. -/
def get_personal_page (fetch : Fetch) (pfx : String) (suffix : String) :
    Except PyError StaffRecord := do
  let soup ← fetch (pfx ++ suffix)
  let (full_name, img, degree_string) ← parse_personal_page soup person_div_id
  let names ← transform_full_name full_name
  let personal_image := if img ≠ "" then pfx ++ img else default_image
  let degree := transform_degree degree_string
  pure ⟨names.last_name, names.first_name, names.middle_name,
        personal_image, degree⟩

/-- The profile loop of `run` consuming `get_personal_data`: process the
links in order, appending each record; the first error aborts the loop.
Also returns the list of profile URLs requested, in order (the failing
request included). -/
def processLinks (fetch : Fetch) (pfx : String) :
    List String → Except PyError (List StaffRecord) × List String
  | [] => (.ok [], [])
  | l :: ls =>
    match get_personal_page fetch pfx l with
    | .error e => (.error e, [pfx ++ l])
    | .ok r =>
      match processLinks fetch pfx ls with
      | (.error e, tr) => (.error e, (pfx ++ l) :: tr)
      | (.ok rs, tr) => (.ok (r :: rs), (pfx ++ l) :: tr)

/-- `Parser.write`: Python's `if not results:` treats an empty list as
absent and falls back to `self.results` — an `AttributeError` when that
attribute was never assigned (`selfResults = none`). On success returns
the single write event (path, records serialized). -/
def write (selfResults : Option (List StaffRecord)) (filepath : String)
    (results : List StaffRecord) :
    Except PyError (List (String × List StaffRecord)) :=
  if results.isEmpty then
    match selfResults with
    | none => .error .attributeError
    | some rs => .ok [(filepath, rs)]
  else
    .ok [(filepath, results)]

/-- The observable outcome of one `Parser.run`: the returned result (or
the uncaught exception), every URL requested in order, and every file
write performed. -/
structure RunOutcome where
  result : Except PyError (List StaffRecord)
  fetched : List String
  written : List (String × List StaffRecord)
  deriving Repr

/-- `Parser.run` on a parser whose `results` attribute holds
`selfResults` (`none` on a fresh parser) and whose options carry
`file_path`: fetch the index page, extract the staff links, process each
link in order collecting records, then — only if every step succeeded —
write the output file when a path is configured. Any error propagates
uncaught and nothing is written. -/
def run (fetch : Fetch) (file_path : Option String)
    (selfResults : Option (List StaffRecord)) : RunOutcome :=
  match fetch base_url with
  | .error e => ⟨.error e, [base_url], []⟩
  | .ok soup =>
    match parse_staff_links soup staff_div_id with
    | .error e => ⟨.error e, [base_url], []⟩
    | .ok links =>
      match processLinks fetch personal_page_prefix links with
      | (.error e, tr) => ⟨.error e, base_url :: tr, []⟩
      | (.ok results, tr) =>
        match file_path with
        | none => ⟨.ok results, base_url :: tr, []⟩
        | some fp =>
          match write selfResults fp results with
          | .error e => ⟨.error e, base_url :: tr, []⟩
          | .ok evs => ⟨.ok results, base_url :: tr, evs⟩

end Parser

/-! ## Helper lemmas and sample documents -/

/-- Reduction of `Except` bind on a success. -/
theorem except_bind_ok {α β : Type} (a : α) (f : α → Except PyError β) :
    (Except.ok a >>= f) = f a := rfl

/-- Reduction of `Except` bind on an error. -/
theorem except_bind_error {α β : Type} (e : PyError)
    (f : α → Except PyError β) :
    ((Except.error e : Except PyError α) >>= f) = .error e := rfl

/-- `pure` in the `Except` monad is `Except.ok`. -/
theorem except_pure {α : Type} (a : α) :
    (pure a : Except PyError α) = .ok a := rfl

/-- Collecting `href` of the anchors-with-`href` of a node list equals a
single `filterMap` pass keeping each anchor's `href` when present. -/
theorem anchors_filter_map_eq_filterMap (l : List Node) :
    (l.filter isAnchorWithHref).map (fun a => (a.attr "href").getD "") =
      l.filterMap (fun n =>
        if n.tagName == some "a" then n.attr "href" else none) := by
  induction l with
  | nil => rfl
  | cons n ns ih =>
    cases hattr : n.attr "href" with
    | none =>
      simp [List.filter_cons, List.filterMap_cons, isAnchorWithHref,
        hattr, ih]
    | some v =>
      by_cases htag : (n.tagName == some "a") = true
      · have htag2 : n.tagName = some "a" := by simpa using htag
        simp [List.filter_cons, List.filterMap_cons, isAnchorWithHref,
          hattr, htag, htag2, ih]
      · have htag2 : ¬n.tagName = some "a" := by simpa using htag
        simp [List.filter_cons, List.filterMap_cons, isAnchorWithHref,
          hattr, htag, htag2, ih]

/-- The staff `div` of the spec's index-page scenario: id `Pages`, two
anchors. -/
def pagesDiv : Node :=
  .elem "div" [("id", "Pages")]
    [.elem "a" [("href", "/p/a.htm")] [.text "A"],
     .elem "a" [("href", "/p/b.htm")] [.text "B"]]

/-- An index page holding `pagesDiv`. -/
def indexDoc : Node :=
  .elem "[document]" [] [.elem "body" [] [pagesDiv]]

/-- An index page whose only element with id `Pages` is a `span`, not a
`div`. -/
def spanIndexDoc : Node :=
  .elem "[document]" []
    [.elem "body" []
      [.elem "span" [("id", "Pages")]
        [.elem "a" [("href", "/p/a.htm")] [.text "A"]]]]

/-- The `persinfo` container of profile A: photo, three-token name,
`Доцент` degree line. -/
def persDivA : Node :=
  .elem "div" [("id", "persinfo")]
    [.elem "img" [("src", "/images/a.jpg")] [],
     .elem "h4" [] [.text "Иванов Иван Иванович"],
     .elem "p" [("class", "noIndnt")]
       [.elem "br" [] [], .text "Доцент\xa0кафедры информатики"]]

/-- Profile page A. -/
def profileDocA : Node :=
  .elem "[document]" [] [.elem "body" [] [persDivA]]

/-- The `persinfo` container of profile B: no image, two-token name,
`Профессор` degree line. -/
def persDivB : Node :=
  .elem "div" [("id", "persinfo")]
    [.elem "h4" [] [.text "Петров Пётр"],
     .elem "p" [("class", "noIndnt")]
       [.elem "br" [] [], .text "Профессор\xa0кафедры финансов"]]

/-- Profile page B. -/
def profileDocB : Node :=
  .elem "[document]" [] [.elem "body" [] [persDivB]]

/-- A `persinfo` container whose image carries an empty `src`. -/
def persDivEmptySrc : Node :=
  .elem "div" [("id", "persinfo")]
    [.elem "img" [("src", "")] [],
     .elem "h4" [] [.text "Сидоров Семён"],
     .elem "p" [("class", "noIndnt")]
       [.elem "br" [] [], .text "Ассистент\xa0кафедры"]]

/-- Profile page with the empty-`src` image. -/
def profileDocEmptySrc : Node :=
  .elem "[document]" [] [.elem "body" [] [persDivEmptySrc]]

/-- The record extracted from profile A. -/
def recA : StaffRecord :=
  ⟨"Иванов", "Иван", "Иванович", "http://www.bseu.by/images/a.jpg", 2⟩

/-- The record extracted from profile B. -/
def recB : StaffRecord :=
  ⟨"Петров", "Пётр", "", Parser.default_image, 3⟩

/-- A network on which the whole crawl succeeds: the index page lists
profiles A and B. -/
def fetchOk : Parser.Fetch := fun url =>
  if url = Parser.base_url then .ok indexDoc
  else if url = "http://www.bseu.by/p/a.htm" then .ok profileDocA
  else if url = "http://www.bseu.by/p/b.htm" then .ok profileDocB
  else .error .transportError

/-- A network serving only the empty-`src` profile. -/
def fetchEmptySrc : Parser.Fetch := fun url =>
  if url = "http://www.bseu.by/p/c.htm" then .ok profileDocEmptySrc
  else .error .transportError

/-- From a successful `parse_personal_page`, the raw image field is `""`
exactly when the info container has no `img` descendant, and otherwise
it is the `src` attribute of the container's first `img` descendant. -/
theorem parse_personal_page_img_spec (soup container : Node)
    (div_id fn im dg : String)
    (hc : soup.find (isDivWithId div_id) = some container)
    (hpp : parse_personal_page soup div_id = .ok (fn, im, dg)) :
    (container.find (isTag "img") = none ∧ im = "") ∨
      (∃ imgN, container.find (isTag "img") = some imgN ∧
        imgN.attr "src" = some im) := by
  simp only [parse_personal_page, hc] at hpp
  cases hh4 : container.find (isTag "h4") with
  | none =>
    cases himg : container.find (isTag "img") with
    | none => simp [himg, hh4, except_bind_ok, except_bind_error] at hpp
    | some imgTag =>
      cases hsrc : imgTag.attr "src" with
      | none => simp [himg, hsrc, except_bind_error] at hpp
      | some v =>
        simp [himg, hsrc, hh4, except_bind_ok, except_bind_error,
          except_pure] at hpp
  | some h4 =>
    cases hdeg : parse_degree_ container with
    | error e =>
      cases himg : container.find (isTag "img") with
      | none => simp [himg, hh4, hdeg, except_bind_ok, except_bind_error,
          except_pure] at hpp
      | some imgTag =>
        cases hsrc : imgTag.attr "src" with
        | none => simp [himg, hsrc, except_bind_error] at hpp
        | some v =>
          simp [himg, hsrc, hh4, hdeg, except_bind_ok, except_bind_error,
            except_pure] at hpp
    | ok d =>
      cases himg : container.find (isTag "img") with
      | none =>
        simp only [himg, hh4, hdeg, except_bind_ok, except_pure] at hpp
        left
        refine ⟨rfl, ?_⟩
        injection hpp with h
        exact (congrArg (fun t => t.2.1) h).symm
      | some imgTag =>
        cases hsrc : imgTag.attr "src" with
        | none => simp [himg, hsrc, except_bind_error] at hpp
        | some v =>
          simp only [himg, hsrc, hh4, hdeg, except_bind_ok,
            except_pure] at hpp
          right
          refine ⟨imgTag, rfl, ?_⟩
          injection hpp with h
          rw [hsrc]
          exact congrArg (fun t => some t.2.1) h

/-- A successful `get_personal_page` decomposes into a successful raw
extraction, a successful name normalization, and the image/degree
policies applied to the raw fields. -/
theorem get_personal_page_ok_shape (fetch : Parser.Fetch)
    (pfx suffix : String) (soup : Node) (r : StaffRecord)
    (hf : fetch (pfx ++ suffix) = .ok soup)
    (hr : Parser.get_personal_page fetch pfx suffix = .ok r) :
    ∃ fn im dg names,
      parse_personal_page soup Parser.person_div_id = .ok (fn, im, dg) ∧
      transform_full_name fn = .ok names ∧
      r = ⟨names.last_name, names.first_name, names.middle_name,
           if im ≠ "" then pfx ++ im else Parser.default_image,
           transform_degree dg⟩ := by
  simp only [Parser.get_personal_page, hf, except_bind_ok] at hr
  cases hpp : parse_personal_page soup Parser.person_div_id with
  | error e => simp [hpp, except_bind_error] at hr
  | ok t =>
    obtain ⟨fn, im, dg⟩ := t
    simp only [hpp, except_bind_ok] at hr
    cases htn : transform_full_name fn with
    | error e => simp [htn, except_bind_error] at hr
    | ok names =>
      simp only [htn, except_bind_ok, except_pure] at hr
      refine ⟨fn, im, dg, names, rfl, htn, ?_⟩
      injection hr with h
      exact h.symm

/-! ## Theorems -/

/-- C6. Corrected: when the info container has no `img` descendant the
record's `img` is the fixed default placeholder URL; when an `img`
descendant with a source attribute is present, `img` is the prefix
concatenated to the source path only if the source path is non-empty —
an empty source path also falls back to the placeholder (Python's `if
img:` truthiness). -/
theorem get_personal_page_img_policy (fetch : Parser.Fetch)
    (pfx suffix : String) (soup container : Node) (r : StaffRecord)
    (hf : fetch (pfx ++ suffix) = .ok soup)
    (hc : soup.find (isDivWithId Parser.person_div_id) = some container)
    (hr : Parser.get_personal_page fetch pfx suffix = .ok r) :
    (container.find (isTag "img") = none →
      r.img = Parser.default_image) ∧
    (∀ imgN src, container.find (isTag "img") = some imgN →
      imgN.attr "src" = some src →
      r.img = if src = "" then Parser.default_image else pfx ++ src) := by
  obtain ⟨fn, im, dg, names, hpp, htn, hshape⟩ :=
    get_personal_page_ok_shape fetch pfx suffix soup r hf hr
  have himg := parse_personal_page_img_spec soup container
    Parser.person_div_id fn im dg hc hpp
  constructor
  · intro hnone
    rcases himg with ⟨-, him⟩ | ⟨imgN, hfind, -⟩
    · subst him
      rw [hshape]
      simp
    · rw [hnone] at hfind
      exact Option.noConfusion hfind
  · intro imgN src hfind hsrc
    rcases himg with ⟨hnone, -⟩ | ⟨imgN2, hfind2, hsrc2⟩
    · rw [hnone] at hfind
      exact Option.noConfusion hfind
    · rw [hfind] at hfind2
      injection hfind2 with he
      subst he
      rw [hsrc] at hsrc2
      injection hsrc2 with he2
      subst he2
      rw [hshape]
      by_cases him : src = ""
      · simp [him]
      · simp [him]

/-- Witness for C6: profile B has no image descendant and its record's
`img` is the default placeholder. -/
theorem get_personal_page_img_policy_witness :
    Parser.get_personal_page fetchOk Parser.personal_page_prefix
        "/p/b.htm" = .ok recB ∧
      recB.img = Parser.default_image :=
  ⟨by rfl,
   (get_personal_page_img_policy fetchOk Parser.personal_page_prefix
      "/p/b.htm" profileDocB persDivB recB (by rfl) (by rfl)
      (by rfl)).1 (by rfl)⟩

/-- C6 counterexample: a profile whose info container does contain an
image, with `src=""`. The claim says the record's `img` is then the
prefix concatenated to the source path (`"http://www.bseu.by" ++ "" =
"http://www.bseu.by"`), but the code's `if img:` treats the empty source
as missing and uses the default placeholder instead. -/
theorem get_personal_page_empty_src_counterexample :
    (persDivEmptySrc.find (isTag "img")).isSome = true ∧
      (persDivEmptySrc.find (isTag "img")).bind (fun n => n.attr "src") =
        some "" ∧
      Parser.get_personal_page fetchEmptySrc Parser.personal_page_prefix
        "/p/c.htm" =
        .ok ⟨"Сидоров", "Семён", "", Parser.default_image, 4⟩ ∧
      Parser.default_image ≠ Parser.personal_page_prefix ++ "" :=
  ⟨by rfl, by rfl, by rfl, by decide⟩

/-- The five known degree labels are pairwise distinct. -/
theorem degrees_nodup : degrees.Nodup := by decide

/-- C1. Corrected from "compares it, trimmed": `transform_degree` performs
no trimming, it lower-cases the input and looks it up exactly as-is. When
the lower-cased input is the `i`-th known label the result is `i` (the
0-based position), and when it is none of the labels the result is the
list's length, 5. -/
theorem transform_degree_lookup (s : String) :
    (∀ i d, degrees.get? i = some d → pyLower s = d →
      transform_degree s = i) ∧
    (degrees.contains (pyLower s) = false →
      transform_degree s = degrees.length) := by
  constructor
  · intro i d hget hs
    have hi : i < 5 := by
      by_contra hge
      rw [List.get?_eq_none.2 (by simp only [degrees, List.length]; omega)]
        at hget
      exact Option.noConfusion hget
    interval_cases i <;>
      · simp only [degrees, List.get?] at hget
        injection hget with hd
        subst hd
        simp only [transform_degree, hs]
        decide
  · intro hc
    have hmem : pyLower s ∉ degrees := by simpa using hc
    simp [transform_degree, hmem]

/-- Witness for C1: "Доцент" lower-cases to the label at position 2, and
an unknown label yields 5. -/
theorem transform_degree_lookup_witness :
    transform_degree "Доцент" = 2 ∧ transform_degree "архивариус" = 5 :=
  ⟨(transform_degree_lookup "Доцент").1 2 "доцент" (by decide) (by decide),
   (transform_degree_lookup "архивариус").2 (by decide)⟩

/-- C1 counterexample: the claim says the comparison happens on the
trimmed input, but the code never strips the label. `"Доцент "` (trailing
space) trims to the known label at position 2, so under the claim's
reading the result would be 2 (as `normalizeDegreeSpec`, modelled from the
spec's words, computes), yet `transform_degree` returns 5. -/
theorem transform_degree_no_trim_counterexample :
    transform_degree "Доцент " = 5 ∧ normalizeDegreeSpec "Доцент " = 2 ∧
      pyStrip (pyLower "Доцент ") = "доцент" := by
  refine ⟨by decide, by decide, by decide⟩

/-- C2. A full name splitting into at least two whitespace tokens is
normalized to last name = token 0, first name = token 1, middle name =
the remaining tokens joined by single spaces ("" when there are exactly
two tokens). -/
theorem transform_full_name_two_or_more (s ln fn : String) (rest : List String)
    (h : pySplit s = ln :: fn :: rest) :
    transform_full_name s = .ok ⟨ln, fn, String.intercalate " " rest⟩ := by
  cases rest with
  | nil =>
    simp only [transform_full_name, h]
    rfl
  | cons m ms =>
    simp only [transform_full_name, h]
    rfl

/-- Witness for C2: the spec's scenarios for three and two tokens. -/
theorem transform_full_name_two_or_more_witness :
    transform_full_name "Иванов Иван Иванович" =
        .ok ⟨"Иванов", "Иван", "Иванович"⟩ ∧
      transform_full_name "Иванов Иван" = .ok ⟨"Иванов", "Иван", ""⟩ := by
  constructor
  · have := transform_full_name_two_or_more "Иванов Иван Иванович"
      "Иванов" "Иван" ["Иванович"] (by decide)
    rw [this]
    rfl
  · have := transform_full_name_two_or_more "Иванов Иван"
      "Иванов" "Иван" [] (by decide)
    rw [this]
    rfl

/-- C3. A full name with fewer than two whitespace tokens (the empty
string, or a single token) makes `transform_full_name` raise
`IndexError` (reading `names[0]` or `names[1]` of a too-short list)
instead of returning a record. -/
theorem transform_full_name_short (s : String)
    (h : (pySplit s).length < 2) :
    transform_full_name s = .error .indexError := by
  match hs : pySplit s with
  | [] =>
    simp only [transform_full_name, hs]
    rfl
  | [a] =>
    simp only [transform_full_name, hs]
    rfl
  | a :: b :: r =>
    rw [hs] at h
    simp at h
    omega

/-- Witness for C3: the empty name and a single-token name both raise
`IndexError`. -/
theorem transform_full_name_short_witness :
    transform_full_name "" = .error .indexError ∧
      transform_full_name "Иванов" = .error .indexError :=
  ⟨transform_full_name_short "" (by decide),
   transform_full_name_short "Иванов" (by decide)⟩

/-- C4. Corrected from "an element with the given container id" to "a
`div` element with the given container id": when the document's first
such `div` exists, `parse_staff_links` returns the link-target (`href`)
of every anchor among that `div`'s descendants, in document order
(`Node.descendants` is the pre-order traversal), anchors without `href`
skipped. -/
theorem parse_staff_links_collects (doc : Node) (div_id : String)
    (container : Node)
    (h : doc.find (isDivWithId div_id) = some container) :
    parse_staff_links doc div_id =
      .ok (container.descendants.filterMap (fun n =>
        if n.tagName == some "a" then n.attr "href" else none)) := by
  simp only [parse_staff_links, h, Node.findAll]
  rw [anchors_filter_map_eq_filterMap]

/-- Witness for C4: the spec's scenario, a container with id `Pages`
holding anchors to `/p/a.htm` and `/p/b.htm`, yields exactly those hrefs
in that order. -/
theorem parse_staff_links_collects_witness :
    parse_staff_links indexDoc "Pages" = .ok ["/p/a.htm", "/p/b.htm"] := by
  have h := parse_staff_links_collects indexDoc "Pages" pagesDiv (by rfl)
  rw [h]
  rfl

/-- C4 counterexample: `spanIndexDoc` contains an element with id `Pages`
(a `span`) holding an anchor with `href` `/p/a.htm`, but the code only
searches for a `div` with that id, so instead of returning the anchor's
href it raises on the missing-element access (`None.find_all`). -/
theorem parse_staff_links_span_counterexample :
    (spanIndexDoc.descendants.any
        (fun n => n.attr "id" == some "Pages")) = true ∧
      parse_staff_links spanIndexDoc "Pages" = .error .attributeError :=
  ⟨by rfl, by rfl⟩

/-- `transform_degree` never exceeds the label count. -/
theorem transform_degree_le_length (s : String) :
    transform_degree s ≤ degrees.length := by
  unfold transform_degree
  split
  · exact List.indexOf_le_length
  · exact Nat.le_refl _

/-- Every record assembled by `get_personal_page` carries a degree within
the sentinel bound. -/
theorem get_personal_page_degree_le (fetch : Parser.Fetch)
    (pfx suffix : String) (r : StaffRecord)
    (hr : Parser.get_personal_page fetch pfx suffix = .ok r) :
    r.degree ≤ degrees.length := by
  cases hf : fetch (pfx ++ suffix) with
  | error e =>
    rw [Parser.get_personal_page, hf, except_bind_error] at hr
    exact Except.noConfusion hr
  | ok soup =>
    obtain ⟨fn, im, dg, names, hpp, htn, hshape⟩ :=
      get_personal_page_ok_shape fetch pfx suffix soup r hf hr
    rw [hshape]
    exact transform_degree_le_length dg

/-- The result component of the profile loop is exactly `mapM` of
`get_personal_page` over the links. -/
theorem processLinks_fst (fetch : Parser.Fetch) (pfx : String)
    (links : List String) :
    (Parser.processLinks fetch pfx links).1 =
      links.mapM (Parser.get_personal_page fetch pfx) := by
  induction links with
  | nil => rfl
  | cons l ls ih =>
    rw [List.mapM_cons]
    simp only [Parser.processLinks]
    cases hg : Parser.get_personal_page fetch pfx l with
    | error e => simp [except_bind_error]
    | ok r =>
      simp only [except_bind_ok]
      rw [← ih]
      cases hrec : Parser.processLinks fetch pfx ls with
      | mk res tr =>
        cases res with
        | error e => simp [except_bind_error]
        | ok rs => simp [except_bind_ok, except_pure]

/-- `mapM` in `Except` preserves list length on success. -/
theorem except_mapM_length {α β : Type} (f : α → Except PyError β) :
    ∀ (xs : List α) (ys : List β), xs.mapM f = .ok ys →
      ys.length = xs.length := by
  intro xs
  induction xs with
  | nil =>
    intro ys h
    rw [List.mapM_nil] at h
    injection h with h
    rw [← h]
    rfl
  | cons x xs ih =>
    intro ys h
    rw [List.mapM_cons] at h
    cases hx : f x with
    | error e =>
      rw [hx, except_bind_error] at h
      exact Except.noConfusion h
    | ok y =>
      rw [hx, except_bind_ok] at h
      cases hm : xs.mapM f with
      | error e =>
        rw [hm, except_bind_error] at h
        exact Except.noConfusion h
      | ok ys0 =>
        rw [hm, except_bind_ok, except_pure] at h
        injection h with h
        rw [← h]
        simp [ih ys0 hm]

/-- On success, every element of the output of `mapM` in `Except` is the
image of some input element. -/
theorem except_mapM_mem {α β : Type} (f : α → Except PyError β) :
    ∀ (xs : List α) (ys : List β), xs.mapM f = .ok ys →
      ∀ y ∈ ys, ∃ x ∈ xs, f x = .ok y := by
  intro xs
  induction xs with
  | nil =>
    intro ys h y hy
    rw [List.mapM_nil] at h
    injection h with h
    rw [← h] at hy
    exact absurd hy (List.not_mem_nil y)
  | cons x xs ih =>
    intro ys h y hy
    rw [List.mapM_cons] at h
    cases hx : f x with
    | error e =>
      rw [hx, except_bind_error] at h
      exact Except.noConfusion h
    | ok y0 =>
      rw [hx, except_bind_ok] at h
      cases hm : xs.mapM f with
      | error e =>
        rw [hm, except_bind_error] at h
        exact Except.noConfusion h
      | ok ys0 =>
        rw [hm, except_bind_ok, except_pure] at h
        injection h with h
        rw [← h] at hy
        cases hy with
        | head => exact ⟨x, List.mem_cons_self x xs, hx⟩
        | tail _ hy0 =>
          obtain ⟨x1, hx1, hfx1⟩ := ih ys0 hm y hy0
          exact ⟨x1, List.mem_cons_of_mem x hx1, hfx1⟩

/-- A successful `run` decomposes into a fetched index page, extracted
links, and a successful `mapM` of `get_personal_page` over the links. -/
theorem run_ok_extract (fetch : Parser.Fetch) (fp : Option String)
    (selfR : Option (List StaffRecord)) (rs : List StaffRecord)
    (h : (Parser.run fetch fp selfR).result = .ok rs) :
    ∃ soup links, fetch Parser.base_url = .ok soup ∧
      parse_staff_links soup Parser.staff_div_id = .ok links ∧
      links.mapM
        (Parser.get_personal_page fetch Parser.personal_page_prefix) =
        .ok rs := by
  cases hf : fetch Parser.base_url with
  | error e =>
    rw [Parser.run, hf] at h
    exact Except.noConfusion h
  | ok soup =>
    simp only [Parser.run, hf] at h
    cases hl : parse_staff_links soup Parser.staff_div_id with
    | error e =>
      rw [hl] at h
      exact Except.noConfusion h
    | ok links =>
      simp only [hl] at h
      refine ⟨soup, links, rfl, hl, ?_⟩
      rw [← processLinks_fst]
      cases hp : Parser.processLinks fetch Parser.personal_page_prefix
          links with
      | mk res tr =>
        simp only [hp] at h
        cases res with
        | error e => exact Except.noConfusion h
        | ok results =>
          cases fp with
          | none =>
            injection h with h
            rw [h]
          | some f =>
            simp only [] at h
            cases hw : Parser.write selfR f results with
            | error e =>
              rw [hw] at h
              exact Except.noConfusion h
            | ok evs =>
              rw [hw] at h
              injection h with h
              rw [h]

/-- C5. A run that completes returns one record per extracted staff
link, produced by `get_personal_page` on that link, in the links' index
page order (the `mapM` equation), and in particular as many records as
links. -/
theorem run_ok_records (fetch : Parser.Fetch) (fp : Option String)
    (selfR : Option (List StaffRecord)) (rs : List StaffRecord)
    (h : (Parser.run fetch fp selfR).result = .ok rs) :
    ∃ soup links, fetch Parser.base_url = .ok soup ∧
      parse_staff_links soup Parser.staff_div_id = .ok links ∧
      links.mapM
        (Parser.get_personal_page fetch Parser.personal_page_prefix) =
        .ok rs ∧
      rs.length = links.length := by
  obtain ⟨soup, links, h1, h2, h3⟩ := run_ok_extract fetch fp selfR rs h
  exact ⟨soup, links, h1, h2, h3, except_mapM_length _ links rs h3⟩

/-- Witness for C5: the two-profile crawl completes with the two expected
records, in index order. -/
theorem run_ok_records_witness :
    (Parser.run fetchOk none none).result = .ok [recA, recB] ∧
      (∃ soup links, fetchOk Parser.base_url = .ok soup ∧
        parse_staff_links soup Parser.staff_div_id = .ok links ∧
        links.mapM
          (Parser.get_personal_page fetchOk Parser.personal_page_prefix) =
          .ok [recA, recB] ∧
        ([recA, recB] : List StaffRecord).length = links.length) :=
  ⟨by rfl, run_ok_records fetchOk none none [recA, recB] (by rfl)⟩

/-- C9. Every record of a completed run has exactly the five fields of
`StaffRecord` (its type), and its degree is bounded by the label-list
length, 5, the sentinel for "unrecognized". -/
theorem run_records_degree_bound (fetch : Parser.Fetch)
    (fp : Option String) (selfR : Option (List StaffRecord))
    (rs : List StaffRecord)
    (h : (Parser.run fetch fp selfR).result = .ok rs) :
    degrees.length = 5 ∧ ∀ r ∈ rs, r.degree ≤ degrees.length := by
  refine ⟨rfl, ?_⟩
  intro r hr
  obtain ⟨soup, links, -, -, hmap⟩ := run_ok_extract fetch fp selfR rs h
  obtain ⟨l, -, hl⟩ := except_mapM_mem _ links rs hmap r hr
  exact get_personal_page_degree_le fetch Parser.personal_page_prefix l r hl

/-- Witness for C9: the completed two-profile crawl, whose records have
degrees 2 and 3. -/
theorem run_records_degree_bound_witness :
    (Parser.run fetchOk none none).result = .ok [recA, recB] ∧
      (degrees.length = 5 ∧
        ∀ r ∈ ([recA, recB] : List StaffRecord),
          r.degree ≤ degrees.length) :=
  ⟨by rfl, run_records_degree_bound fetchOk none none [recA, recB] (by rfl)⟩

/-- An index page with no element of id `Pages` at all. -/
def indexDocNoPages : Node :=
  .elem "[document]" []
    [.elem "body" [] [.elem "div" [("id", "Content")] []]]

/-- A network serving an index page without the staff container. -/
def fetchNoPages : Parser.Fetch := fun url =>
  if url = Parser.base_url then .ok indexDocNoPages
  else .error .transportError

/-- A network on which profile A succeeds but fetching profile B fails. -/
def fetchFailB : Parser.Fetch := fun url =>
  if url = Parser.base_url then .ok indexDoc
  else if url = "http://www.bseu.by/p/a.htm" then .ok profileDocA
  else .error .transportError

/-- An index page whose `Pages` div holds no anchor at all. -/
def indexDocEmptyPages : Node :=
  .elem "[document]" []
    [.elem "body" [] [.elem "div" [("id", "Pages")] [.text "nobody"]]]

/-- A network serving the anchor-less index page. -/
def fetchEmptyPages : Parser.Fetch := fun url =>
  if url = Parser.base_url then .ok indexDocEmptyPages
  else .error .transportError

/-- C7. When the fetched index document has no `div` with the staff
container id, the run fails with the structure error (the Python
`AttributeError` raised on accessing the missing container), only the
index URL was ever requested — no profile page is fetched — and no link
list is produced and nothing is written. -/
theorem run_missing_container (fetch : Parser.Fetch) (fp : Option String)
    (selfR : Option (List StaffRecord)) (soup : Node)
    (hf : fetch Parser.base_url = .ok soup)
    (hnone : soup.find (isDivWithId Parser.staff_div_id) = none) :
    Parser.run fetch fp selfR =
      ⟨.error .attributeError, [Parser.base_url], []⟩ := by
  simp only [Parser.run, hf, parse_staff_links, hnone]

/-- Witness for C7: a network whose index page lacks the container. -/
theorem run_missing_container_witness :
    Parser.run fetchNoPages none none =
      ⟨.error .attributeError, [Parser.base_url], []⟩ :=
  run_missing_container fetchNoPages none none indexDocNoPages
    (by rfl) (by rfl)

/-- The profile loop aborts at the first failing link: the failure's
error is returned unchanged, and exactly the links up to and including
the failing one were requested. -/
theorem processLinks_first_error (fetch : Parser.Fetch) (pfx : String) :
    ∀ (links : List String) (i : Nat) (e : PyError) (hi : i < links.length),
      (∀ j (hj : j < i), ∃ r, Parser.get_personal_page fetch pfx
        (links.get ⟨j, Nat.lt_trans hj hi⟩) = .ok r) →
      Parser.get_personal_page fetch pfx (links.get ⟨i, hi⟩) = .error e →
      Parser.processLinks fetch pfx links =
        (.error e, (links.take (i + 1)).map (fun l => pfx ++ l)) := by
  intro links
  induction links with
  | nil =>
    intro i e hi
    exact absurd hi (by simp)
  | cons l ls ih =>
    intro i e hi hok herr
    cases i with
    | zero =>
      have herr0 : Parser.get_personal_page fetch pfx l = .error e := herr
      simp only [Parser.processLinks, herr0]
      rfl
    | succ i0 =>
      obtain ⟨r, hr⟩ := hok 0 (Nat.succ_pos i0)
      have hr0 : Parser.get_personal_page fetch pfx l = .ok r := hr
      have hi0 : i0 < ls.length := Nat.lt_of_succ_lt_succ hi
      have hok0 : ∀ j (hj : j < i0), ∃ r0, Parser.get_personal_page fetch
          pfx (ls.get ⟨j, Nat.lt_trans hj hi0⟩) = .ok r0 :=
        fun j hj => hok (j + 1) (Nat.succ_lt_succ hj)
      have herr0 : Parser.get_personal_page fetch pfx
          (ls.get ⟨i0, hi0⟩) = .error e := herr
      simp only [Parser.processLinks, hr0,
        ih i0 e hi0 hok0 herr0]
      rfl

/-- C8. When processing the `i`-th extracted link fails (a transport or
extraction error) after the earlier links succeeded, the run returns
exactly that error — nothing catches it — having requested only the
index page and the profiles up to and including the failing one; no file
is written and the records accumulated before the failure are absent
from the outcome. -/
theorem run_profile_failure_aborts (fetch : Parser.Fetch)
    (fp : Option String) (selfR : Option (List StaffRecord))
    (soup : Node) (links : List String) (i : Nat) (e : PyError)
    (hf : fetch Parser.base_url = .ok soup)
    (hl : parse_staff_links soup Parser.staff_div_id = .ok links)
    (hi : i < links.length)
    (hok : ∀ j (hj : j < i), ∃ r, Parser.get_personal_page fetch
      Parser.personal_page_prefix (links.get ⟨j, Nat.lt_trans hj hi⟩) =
        .ok r)
    (herr : Parser.get_personal_page fetch Parser.personal_page_prefix
      (links.get ⟨i, hi⟩) = .error e) :
    Parser.run fetch fp selfR =
      ⟨.error e,
       Parser.base_url ::
         (links.take (i + 1)).map (fun l => Parser.personal_page_prefix ++ l),
       []⟩ := by
  simp only [Parser.run, hf, hl,
    processLinks_first_error fetch Parser.personal_page_prefix links i e
      hi hok herr]

/-- Witness for C8: fetching profile B fails with a transport error after
profile A succeeded; the run returns the transport error, the trace stops
at profile B, and nothing is written. -/
theorem run_profile_failure_aborts_witness :
    Parser.run fetchFailB none none =
      ⟨.error .transportError,
       [Parser.base_url, "http://www.bseu.by/p/a.htm",
        "http://www.bseu.by/p/b.htm"], []⟩ := by
  have h := run_profile_failure_aborts fetchFailB none none indexDoc
    ["/p/a.htm", "/p/b.htm"] 1 .transportError (by rfl) (by rfl)
    (by decide)
    (fun j hj => by
      interval_cases j
      exact ⟨recA, by rfl⟩)
    (by rfl)
  rw [h]
  rfl

/-- C10. A run over an index page whose container holds no links, with an
output file path configured and on a fresh parser (`self.results` not yet
assigned, since `run` assigns it only after the write call): the empty
result list is falsy, so `write` falls back to the nonexistent
`self.results` attribute and the run fails with `AttributeError`, writing
no file — an empty JSON array is never produced. -/
theorem run_empty_results_write_fails (fetch : Parser.Fetch)
    (fp : String) (soup : Node)
    (hf : fetch Parser.base_url = .ok soup)
    (hl : parse_staff_links soup Parser.staff_div_id = .ok []) :
    Parser.run fetch (some fp) none =
      ⟨.error .attributeError, [Parser.base_url], []⟩ := by
  simp only [Parser.run, hf, hl, Parser.processLinks, Parser.write]
  rfl

/-- Witness for C10: the anchor-less index page with an output path on a
fresh parser. -/
theorem run_empty_results_write_fails_witness :
    Parser.run fetchEmptyPages (some "staff.json") none =
      ⟨.error .attributeError, [Parser.base_url], []⟩ :=
  run_empty_results_write_fails fetchEmptyPages "staff.json"
    indexDocEmptyPages (by rfl) (by rfl)

end Bseu
